import Mathlib

/-!
# DIAMOND: SWIPE cell-update kernels and the BLAST database reader

A shallow embedding of

* `src/dp/swipe/swipe.h`: the template kernels `swipe_cell_update` (three
  overloads) and the frame-shift `cell_update`;
* `src/data/blastdb/blastdb.cpp`: `BlastDB::read_seq_data`, `read_seqinfo`,
  `putback_seqinfo` and `tell_seq`;
* `src/tools/benchmark.cpp`: the index computed in the loop of `diag_scores`.

The kernels are C++ templates over a score-vector type `_sv`.  They are
embedded as functions over an arbitrary carrier `sv` together with a record
`ScoreTraits sv` of the operations the template body uses (`+`, `-`, `max`,
`ScoreTraits<_sv>::saturate`, the broadcasting constructor).  The by-reference
parameters `horizontal_gap`, `vertical_gap`, `best` become a `CellState`
that is passed in and returned.

The score-vector types themselves (`dp/score_vector.h`) and the driver that
sweeps the kernel over a matrix are not among the sources; their models follow
the specification and say so in their doc comments.  The 32-bit lane is the
built-in `int32_t`; its operators are embedded as `int32Traits`.
-/

namespace Diamond

/-! ## Score lanes -/

/-- Smallest value representable in a signed lane of `W` bits. -/
def minScore (W : Nat) : Int := -(2 ^ (W - 1))

/-- Largest value representable in a signed lane of `W` bits. -/
def maxScore (W : Nat) : Int := 2 ^ (W - 1) - 1

/-- Membership of the representable range of a `W`-bit lane. -/
def inRange (W : Nat) (x : Int) : Prop := minScore W ≤ x ∧ x ≤ maxScore W

instance (W : Nat) (x : Int) : Decidable (inRange W x) := by
  unfold inRange; infer_instance

/-- Modelled from the spec: `saturate` of `dp/score_vector.h` (not among the
sources) on one lane element, "clamps every lane element into [min, max] of
the integer width". -/
def clamp (W : Nat) (x : Int) : Int := max (minScore W) (min (maxScore W) x)

/-- Modelled from the spec: lane addition of `dp/score_vector.h` (not among the
sources), "addition/subtraction that clamps at the representable min/max
instead of wrapping". -/
def satAdd (W : Nat) (a b : Int) : Int := clamp W (a + b)

/-- Modelled from the spec: lane subtraction of `dp/score_vector.h` (not among
the sources), "addition/subtraction that clamps at the representable min/max
instead of wrapping". -/
def satSub (W : Nat) (a b : Int) : Int := clamp W (a - b)

/-- The operations of a score-vector type `_sv` that the kernels of `swipe.h`
use: `operator+`, `operator-` (also behind `-=`), `max`,
`ScoreTraits<_sv>::saturate` and the constructor `_sv(Score)` that broadcasts
one score. -/
structure ScoreTraits (sv : Type) where
  add : sv → sv → sv
  sub : sv → sv → sv
  max : sv → sv → sv
  saturate : sv → sv
  broadcast : Int → sv

/-- Modelled from the spec: the single-lane instance of the `ScoreLane`
interface of `dp/score_vector.h` (not among the sources) at width `W`:
saturating add and subtract, `max`, and `saturate` as the clamp.  This is the
contract of the 8- and 16-bit score vectors; the 32-bit lane of the sources is
the built-in `int32_t`, whose operators are those of `int32Traits`. -/
def scalarTraits (W : Nat) : ScoreTraits Int where
  add := satAdd W
  sub := satSub W
  max := fun a b => Max.max a b
  saturate := clamp W
  broadcast := fun x => x

/-- A vector of `N` lane elements. -/
abbrev Lanes (N : Nat) : Type := Fin N → Int

/-- Modelled from the spec: the `N`-lane instance of the `ScoreLane` interface
of `dp/score_vector.h` (not among the sources) at width `W`: "elementwise
add, subtract, max between two lanes of identical width", `saturate` clamping
every element, and construction "from a scalar broadcast".  This is the
contract of the 8- and 16-bit score vectors; the 32-bit lane of the sources is
the built-in `int32_t`, whose operators are those of `int32Traits`. -/
def vectorTraits (W N : Nat) : ScoreTraits (Lanes N) where
  add := fun a b k => satAdd W (a k) (b k)
  sub := fun a b k => satSub W (a k) (b k)
  max := fun a b k => Max.max (a k) (b k)
  saturate := fun a k => clamp W (a k)
  broadcast := fun x _ => x

/-- A value of the signed 32-bit type `int` (`int32_t`), the type of `oid_` and
of the 32-bit score lane. -/
def isInt32 (x : Int) : Prop := -(2 ^ 31) ≤ x ∧ x < 2 ^ 31

instance (x : Int) : Decidable (isInt32 x) := by
  unfold isInt32; infer_instance

/-- Reduction of an integer into the signed 32-bit range (two's complement),
the result of `int` arithmetic as the hardware computes it. -/
def int32 (x : Int) : Int := (x + 2 ^ 31) % 2 ^ 32 - 2 ^ 31

/-- The operations of the kernels at `_sv = int32_t`, the 32-bit lane type
that `swipe.h` names (`SwipeProfile<int32_t>`, lines 197-225): `+` and `-` are
the built-in operators of `int32_t`, computed in two's complement without
saturation; `max` is `std::max`; a score is its own broadcast.
`ScoreTraits<int32_t>::saturate` is declared in `dp/score_vector.h` (not among
the sources) and is the parameter `saturate`. -/
def int32Traits (saturate : Int → Int) : ScoreTraits Int where
  add := fun a b => int32 (a + b)
  sub := fun a b => int32 (a - b)
  max := fun a b => Max.max a b
  saturate := saturate
  broadcast := fun x => x

/-- The three by-reference parameters of a cell update. -/
structure CellState (sv : Type) where
  horizontal_gap : sv
  vertical_gap : sv
  best : sv

/-! ## The kernels of `swipe.h` -/

/-- The overload of `swipe_cell_update` whose third parameter is `void*`
(swipe.h lines 29-50).  Returns the new cell and the updated references. -/
def swipe_cell_update {sv : Type} (T : ScoreTraits sv)
    (diagonal_cell scores : sv) (_bias : Unit) (gap_extension gap_open : sv)
    (st : CellState sv) : sv × CellState sv :=
  let current_cell := T.max (T.add diagonal_cell scores) st.vertical_gap
  let current_cell := T.max current_cell st.horizontal_gap
  let current_cell := T.saturate current_cell
  let best := T.max st.best current_cell
  let vertical_gap := T.sub st.vertical_gap gap_extension
  let horizontal_gap := T.sub st.horizontal_gap gap_extension
  let «open» := T.sub current_cell gap_open
  let vertical_gap := T.max vertical_gap «open»
  let horizontal_gap := T.max horizontal_gap «open»
  (current_cell, { horizontal_gap := horizontal_gap, vertical_gap := vertical_gap, best := best })

/-- The overload of `swipe_cell_update` with `int8_t query_bias`
(swipe.h lines 52-73). -/
def swipe_cell_update_int8 {sv : Type} (T : ScoreTraits sv)
    (diagonal_cell scores : sv) (query_bias : Int) (gap_extension gap_open : sv)
    (st : CellState sv) : sv × CellState sv :=
  let current_cell := T.add diagonal_cell (T.add scores (T.broadcast query_bias))
  let current_cell := T.max (T.max current_cell st.vertical_gap) st.horizontal_gap
  let current_cell := T.saturate current_cell
  let best := T.max st.best current_cell
  let vertical_gap := T.sub st.vertical_gap gap_extension
  let horizontal_gap := T.sub st.horizontal_gap gap_extension
  let «open» := T.sub current_cell gap_open
  let vertical_gap := T.max vertical_gap «open»
  let horizontal_gap := T.max horizontal_gap «open»
  (current_cell, { horizontal_gap := horizontal_gap, vertical_gap := vertical_gap, best := best })

/-- The overload of `swipe_cell_update` with a vector `query_bias`
(swipe.h lines 75-96). -/
def swipe_cell_update_sv {sv : Type} (T : ScoreTraits sv)
    (diagonal_cell scores query_bias gap_extension gap_open : sv)
    (st : CellState sv) : sv × CellState sv :=
  let current_cell := T.add diagonal_cell (T.add scores query_bias)
  let current_cell := T.max (T.max current_cell st.vertical_gap) st.horizontal_gap
  let current_cell := T.saturate current_cell
  let best := T.max st.best current_cell
  let vertical_gap := T.sub st.vertical_gap gap_extension
  let horizontal_gap := T.sub st.horizontal_gap gap_extension
  let «open» := T.sub current_cell gap_open
  let vertical_gap := T.max vertical_gap «open»
  let horizontal_gap := T.max horizontal_gap «open»
  (current_cell, { horizontal_gap := horizontal_gap, vertical_gap := vertical_gap, best := best })

/-- The frame-shift overload of `cell_update`, taking `shift_cell0`,
`shift_cell1` and `frame_shift` (swipe.h lines 141-167). -/
def cell_update_frame_shift {sv : Type} (T : ScoreTraits sv)
    (diagonal_cell shift_cell0 shift_cell1 scores gap_extension gap_open frame_shift : sv)
    (st : CellState sv) : sv × CellState sv :=
  let current_cell := T.add diagonal_cell scores
  let f := T.sub scores frame_shift
  let current_cell := T.max current_cell (T.add shift_cell0 f)
  let current_cell := T.max current_cell (T.add shift_cell1 f)
  let current_cell := T.max (T.max current_cell st.vertical_gap) st.horizontal_gap
  let current_cell := T.saturate current_cell
  let best := T.max st.best current_cell
  let vertical_gap := T.sub st.vertical_gap gap_extension
  let horizontal_gap := T.sub st.horizontal_gap gap_extension
  let «open» := T.sub current_cell gap_open
  let vertical_gap := T.max vertical_gap «open»
  let horizontal_gap := T.max horizontal_gap «open»
  (current_cell, { horizontal_gap := horizontal_gap, vertical_gap := vertical_gap, best := best })

/-! ## Reference recurrences, in the words of the specification -/

/-- Lane `k` of a vector cell state. -/
def CellState.lane {N : Nat} (st : CellState (Lanes N)) (k : Fin N) : CellState Int where
  horizontal_gap := st.horizontal_gap k
  vertical_gap := st.vertical_gap k
  best := st.best k

/-- The vector cell state whose gaps are `g` and whose `best` is `b` in every
lane. -/
def CellState.const (N : Nat) (g b : Int) : CellState (Lanes N) where
  horizontal_gap := fun _ => g
  vertical_gap := fun _ => g
  best := fun _ => b

/-- Lane `k` of a kernel result. -/
def resultLane {N : Nat} (r : Lanes N × CellState (Lanes N)) (k : Fin N) : Int × CellState Int :=
  (r.1 k, r.2.lane k)

/-- Three-way maximum, the `max(a, b, c)` of the specification. -/
def max3 (a b c : Int) : Int := max a (max b c)

/-- Five-way maximum, as the specification writes the frame-shift cell. -/
def max5 (a b c d e : Int) : Int := max a (max b (max c (max d e)))

/-- The Plain recurrence as the specification words it (section 4.3, variant
1), on one lane element in saturating arithmetic of width `W`:
`current = max(diagonal + score, vertical_gap, horizontal_gap)`; saturate;
`best = max(best, current)`; degrade both gaps by `gap_extension`;
`open = current - gap_open`; each gap becomes `max(gap, open)`. -/
def plain_reference (W : Nat) (diagonal score gap_extension gap_open : Int)
    (st : CellState Int) : Int × CellState Int :=
  let current := clamp W (max3 (satAdd W diagonal score) st.vertical_gap st.horizontal_gap)
  let best := max st.best current
  let vertical_gap := satSub W st.vertical_gap gap_extension
  let horizontal_gap := satSub W st.horizontal_gap gap_extension
  let opened := satSub W current gap_open
  (current, { horizontal_gap := max horizontal_gap opened,
              vertical_gap := max vertical_gap opened,
              best := best })

/-- The Frame-shifted recurrence as the specification words it (section 4.3,
variant 3), on one lane element in saturating arithmetic of width `W`:
`current = max(diagonal + score, shift0 + (score - penalty),
shift1 + (score - penalty), vertical_gap, horizontal_gap)`, then the same
update of `best` and of the two gaps as the Plain variant. -/
def frame_shift_reference (W : Nat)
    (diagonal shift0 shift1 score gap_extension gap_open penalty : Int)
    (st : CellState Int) : Int × CellState Int :=
  let current := clamp W (max5 (satAdd W diagonal score)
    (satAdd W shift0 (satSub W score penalty))
    (satAdd W shift1 (satSub W score penalty))
    st.vertical_gap st.horizontal_gap)
  let best := max st.best current
  let vertical_gap := satSub W st.vertical_gap gap_extension
  let horizontal_gap := satSub W st.horizontal_gap gap_extension
  let opened := satSub W current gap_open
  (current, { horizontal_gap := max horizontal_gap opened,
              vertical_gap := max vertical_gap opened,
              best := best })

/-- Modelled from the spec: the portable baseline of section 9, "a scalar loop
over lanes" (not among the sources): for each lane in turn, the unvectorized
scalar Plain recurrence `plain_reference` run on the values of that lane
alone. -/
def scalar_baseline (W N : Nat) (diagonal scores gap_extension gap_open : Lanes N)
    (st : CellState (Lanes N)) : Fin N → Int × CellState Int :=
  fun k => plain_reference W (diagonal k) (scores k) (gap_extension k) (gap_open k)
    { horizontal_gap := st.horizontal_gap k, vertical_gap := st.vertical_gap k, best := st.best k }

/-- Every lane of a vector lies in the representable range of width `W`. -/
def lanesInRange (W : Nat) {N : Nat} (v : Lanes N) : Prop := ∀ k, inRange W (v k)

/-- All three components of a vector cell state are representable. -/
def CellState.inRange (W : Nat) {N : Nat} (st : CellState (Lanes N)) : Prop :=
  lanesInRange W st.horizontal_gap ∧ lanesInRange W st.vertical_gap ∧ lanesInRange W st.best

/-! ## The full-matrix sweep -/

/-- Modelled from the spec: the substitution matrix of the concrete scenarios
of section 8 (the score matrix is not among the sources), "a simple
identity-biased matrix (match=+5, mismatch=-4)". -/
def identity_matrix {α : Type} [DecidableEq α] (a b : α) : Int := if a = b then 5 else -4

/-- State kept for one target position between two query rows: the target
residue, the floored cell of the previous row (the next row's diagonal input
one column further) and the vertical gap entering the column. -/
structure Column (α : Type) where
  residue : α
  score : Int
  vertical_gap : Int

/-- Modelled from the spec: one query row of the full-matrix sweep of the
`SwipeDriver` (section 4.4; the driver is not among the sources).  For each
target position, left to right, the Plain `swipe_cell_update` runs once with
the diagonal input being the cell of the previous row and previous column; the
returned cell is floored at the zero score before it is stored; the horizontal
gap and `best` are handed to the next column, the vertical gap stays with the
column. -/
def sweep_row {α : Type} (W : Nat) (matrix : α → α → Int) (gap_extension gap_open : Int)
    (q : α) : List (Column α) → Int → Int → Int → List (Column α) × Int
  | [], _, _, best => ([], best)
  | c :: cs, diagonal, horizontal_gap, best =>
    let r := swipe_cell_update (scalarTraits W) diagonal (matrix q c.residue) ()
      gap_extension gap_open
      { horizontal_gap := horizontal_gap, vertical_gap := c.vertical_gap, best := best }
    let rest := sweep_row W matrix gap_extension gap_open q cs c.score
      r.2.horizontal_gap r.2.best
    ({ residue := c.residue, score := max r.1 0, vertical_gap := r.2.vertical_gap } :: rest.1,
      rest.2)

/-- Modelled from the spec: the query rows of the sweep, "iterate the query
from start to end" (section 4.4).  Every row starts at the left edge with
diagonal input zero and the horizontal gap at its initial value. -/
def sweep_rows {α : Type} (W : Nat) (matrix : α → α → Int) (gap_extension gap_open : Int)
    (gap_init : Int) : List α → List (Column α) → Int → List (Column α) × Int
  | [], cols, best => (cols, best)
  | q :: qs, cols, best =>
    let r := sweep_row W matrix gap_extension gap_open q cols 0 gap_init best
    sweep_rows W matrix gap_extension gap_open gap_init qs r.1 r.2

/-- Modelled from the spec: the full-matrix local-alignment sweep of the
`SwipeDriver` (section 4.4; not among the sources) on one lane of width `W`.
Cell state is "created at the left/top edge ... with gap values initialized to
a sentinel open cost", here the zero score minus `gap_open`; cells at the edge
and `best` start at the zero score.  The result is the final `best`. -/
def sweep {α : Type} (W : Nat) (matrix : α → α → Int) (gap_extension gap_open : Int)
    (query target : List α) : Int :=
  let gap_init := satSub W 0 gap_open
  (sweep_rows W matrix gap_extension gap_open gap_init query
    (target.map fun t => { residue := t, score := 0, vertical_gap := gap_init }) 0).2

/-- The columns at target positions `j + 1, j + 2, ...` hold, after `i` query
rows, no score and no vertical gap above `5 * min(i, position)`. -/
def ColsBounded {α : Type} (i : Nat) : Nat → List (Column α) → Prop
  | _, [] => True
  | j, c :: cs =>
    c.score ≤ 5 * min (i : Int) ((j : Int) + 1)
      ∧ c.vertical_gap ≤ 5 * min (i : Int) ((j : Int) + 1)
      ∧ ColsBounded i (j + 1) cs

/-! ## `BlastDB::read_seq_data` -/

/-- The part of the NCBI `CSeqDB` handle `db_` (an external library) that
`blastdb.cpp` reads: the number of sequences, the residue buffer that
`GetSequence(oid, &buf)` exposes (its return value is the length of that
buffer) and `GetSeqIDs(oid).front()->GetSeqIdString()`. -/
structure CSeqDB where
  GetNumSeqs : Int
  GetSequence : Int → List Int
  GetSeqIdString : Int → String

/-- The data members of `BlastDB` that the reader functions use. -/
structure BlastDB where
  db_ : CSeqDB
  oid_ : Int
  oid_seqdata_ : Int

/-- The `std::runtime_error`s thrown by `read_seq_data`: "Incorrect length",
and "Unrecognized sequence character in BLAST database (l, id=..., pos=i)"
with the letter, the sequence id and the position it is built from; and the
one thrown by `read_seqinfo`, "Database with sequence length 0 is not
supported". -/
inductive Error where
  | incorrect_length : Error
  | unrecognized (letter : Int) (id : String) (pos : Nat) : Error
  | zero_length : Error
  deriving DecidableEq

/-- Memory as seen through a `Letter*`: a letter at every address. -/
abbrev Memory : Type := Int → Int

/-- Conversion of an integer to the unsigned 64-bit `size_t`. -/
def size_t (x : Int) : Int := x % 2 ^ 64

/-- A value of the signed 8-bit type `Letter`. -/
def isLetter (x : Int) : Prop := -128 ≤ x ∧ x ≤ 127

instance (x : Int) : Decidable (isLetter x) := by
  unfold isLetter; infer_instance

/-- The loop `for (int i = 0; i < db_len; ++i)` of `read_seq_data`
(blastdb.cpp lines 117-127), entered at index `i` with the residues
`buf[i], buf[i+1], ...` still to read and `dst` already advanced `i` times.
`NCBI_TO_STD` is the conversion table of `basic/value.h` (not among the
sources), `sizeof(NCBI_TO_STD)` its number of one-byte entries; the comparison
`l >= sizeof(NCBI_TO_STD)` converts the letter to `size_t`. -/
def read_seq_data_loop (NCBI_TO_STD : List Int) (id : String) :
    List Int → Nat → Int → Memory → Memory × Except Error Unit
  | [], _, _, mem => (mem, .ok ())
  | l :: rest, i, dst, mem =>
    if (NCBI_TO_STD.length : Int) ≤ size_t l ∨ NCBI_TO_STD.getD l.toNat 0 = -1 then
      (mem, .error (.unrecognized l id i))
    else
      read_seq_data_loop NCBI_TO_STD id rest (i + 1) (dst + 1)
        (Function.update mem dst (NCBI_TO_STD.getD l.toNat 0))

/-- The function `BlastDB::read_seq_data(Letter* dst, size_t len)` (blastdb.cpp lines
108-129) on the memory `mem`; returns the memory after the call together with
the outcome.  `DELIMITER` is `Sequence::DELIMITER` (not among the sources). -/
def BlastDB.read_seq_data (NCBI_TO_STD : List Int) (DELIMITER : Int) (self : BlastDB)
    (mem : Memory) (dst : Int) (len : Nat) : Memory × Except Error Unit :=
  let mem := Function.update mem (dst - 1) DELIMITER
  let mem := Function.update mem (dst + len) DELIMITER
  let buf := self.db_.GetSequence self.oid_seqdata_
  let db_len : Int := buf.length
  if size_t db_len ≠ len then
    (mem, .error .incorrect_length)
  else
    read_seq_data_loop NCBI_TO_STD (self.db_.GetSeqIdString self.oid_seqdata_) buf 0 dst mem

/-- A stored residue code that has no standard letter: it lies outside the
table `NCBI_TO_STD` (negative, or at or past its size) or its entry is the
marker -1. -/
def unrecognized_code (NCBI_TO_STD : List Int) (l : Int) : Prop :=
  l < 0 ∨ (NCBI_TO_STD.length : Int) ≤ l ∨ NCBI_TO_STD[l.toNat]? = some (-1)

instance (NCBI_TO_STD : List Int) (l : Int) : Decidable (unrecognized_code NCBI_TO_STD l) := by
  unfold unrecognized_code; infer_instance

/-- A database handle that serves the residues `buf` under the id `id` at
every OID. -/
def CSeqDB.single (buf : List Int) (id : String) : CSeqDB where
  GetNumSeqs := 1
  GetSequence := fun _ => buf
  GetSeqIdString := fun _ => id

/-! ## `BlastDB::read_seqinfo`, `putback_seqinfo`, `tell_seq` -/

/-- The function `BlastDB::tell_seq()` (blastdb.cpp lines 69-72): `oid_`
returned as `size_t`. -/
def BlastDB.tell_seq (self : BlastDB) : Int := size_t self.oid_

/-- The function `BlastDB::read_seqinfo()` (blastdb.cpp lines 74-86); returns
the reader after the call together with the outcome.  `SeqInfo` stands for the
two-argument constructor of the record `SeqInfo` (declared outside the
sources); the `int l` is the length that `GetSequence` returns. -/
def BlastDB.read_seqinfo {σ : Type} (SeqInfo : Int → Int → σ) (self : BlastDB) :
    BlastDB × Except Error σ :=
  if self.oid_ ≥ self.db_.GetNumSeqs then
    ({ self with oid_ := int32 (self.oid_ + 1) }, .ok (SeqInfo 0 0))
  else
    let l : Int := (self.db_.GetSequence self.oid_).length
    if l = 0 then
      (self, .error .zero_length)
    else
      ({ self with oid_ := int32 (self.oid_ + 1) }, .ok (SeqInfo self.oid_ l))

/-- The function `BlastDB::putback_seqinfo()` (blastdb.cpp lines 88-91):
`--oid_`. -/
def BlastDB.putback_seqinfo (self : BlastDB) : BlastDB :=
  { self with oid_ := int32 (self.oid_ - 1) }

/-! ## The `diag_scores` benchmark -/

/-- The number of iterations `n` of the loop of `diag_scores`
(benchmark.cpp line 266). -/
def diag_scores_n : Nat := 100000

/-- The number of elements of `int scores[128]` (benchmark.cpp line 270). -/
def diag_scores_size : Nat := 128

/-- The index `i & 128` at which `diag_scores` reads `scores` in iteration `i`
(benchmark.cpp line 273). -/
def diag_scores_index (i : Nat) : Nat := i &&& 128

/-! # Theorems -/

/-! ## Facts about clamping -/

theorem minScore_le_maxScore (W : Nat) : minScore W ≤ maxScore W := by
  unfold minScore maxScore
  have h : (1 : Int) ≤ 2 ^ (W - 1) := one_le_pow₀ (by norm_num)
  omega

theorem clamp_inRange (W : Nat) (x : Int) : inRange W (clamp W x) := by
  have h := minScore_le_maxScore W
  unfold inRange clamp
  omega

theorem CellState.ext_iff3 {sv : Type} (a b : CellState sv) :
    a = b ↔ a.horizontal_gap = b.horizontal_gap ∧ a.vertical_gap = b.vertical_gap
      ∧ a.best = b.best := by
  cases a; cases b; simp

/-! ## The Plain, Biased and Frame-shifted kernels -/

/-- C1: on `N` lanes of width `W`, every lane of the result of the Plain
`swipe_cell_update` (returned cell, `best`, `horizontal_gap`, `vertical_gap`)
is the reference recurrence of the specification applied to that lane of the
inputs as they were on entry, in saturating arithmetic. -/
theorem swipe_cell_update_eq_reference (W N : Nat)
    (diagonal scores gap_extension gap_open : Lanes N) (st : CellState (Lanes N))
    (k : Fin N) :
    resultLane (swipe_cell_update (vectorTraits W N) diagonal scores () gap_extension gap_open st) k
      = plain_reference W (diagonal k) (scores k) (gap_extension k) (gap_open k) (st.lane k) := by
  simp only [resultLane, swipe_cell_update, vectorTraits, plain_reference, CellState.lane, max3,
    max_assoc]

/-- C2: for every score-vector type and every bias, the Biased kernel (vector
bias) is the Plain kernel run on `scores + query_bias`, and the `int8_t`-bias
overload is the vector-bias overload called with the broadcast bias, which on
`N` lanes is the vector holding the bias in every lane. -/
theorem swipe_cell_update_biased_eq_plain {sv : Type} (T : ScoreTraits sv)
    (diagonal scores query_bias gap_extension gap_open : sv) (bias8 : Int)
    (st : CellState sv) (W N : Nat) (diagonalN scoresN gap_extensionN gap_openN : Lanes N)
    (stN : CellState (Lanes N)) :
    swipe_cell_update_sv T diagonal scores query_bias gap_extension gap_open st
        = swipe_cell_update T diagonal (T.add scores query_bias) () gap_extension gap_open st
    ∧ swipe_cell_update_int8 T diagonal scores bias8 gap_extension gap_open st
        = swipe_cell_update_sv T diagonal scores (T.broadcast bias8) gap_extension gap_open st
    ∧ swipe_cell_update_int8 (vectorTraits W N) diagonalN scoresN bias8 gap_extensionN
          gap_openN stN
        = swipe_cell_update_sv (vectorTraits W N) diagonalN scoresN (fun _ => bias8)
            gap_extensionN gap_openN stN :=
  ⟨rfl, rfl, rfl⟩

/-- C3: on `N` lanes of width `W`, every lane of the result of the frame-shift
`cell_update` is the Frame-shifted reference recurrence of the specification:
the five-way maximum with the one penalty `frame_shift` in both shift terms,
saturated, followed by the Plain update of `best` and of both gaps. -/
theorem cell_update_frame_shift_eq_reference (W N : Nat)
    (diagonal shift_cell0 shift_cell1 scores gap_extension gap_open frame_shift : Lanes N)
    (st : CellState (Lanes N)) (k : Fin N) :
    resultLane (cell_update_frame_shift (vectorTraits W N) diagonal shift_cell0 shift_cell1
        scores gap_extension gap_open frame_shift st) k
      = frame_shift_reference W (diagonal k) (shift_cell0 k) (shift_cell1 k) (scores k)
          (gap_extension k) (gap_open k) (frame_shift k) (st.lane k) := by
  simp only [resultLane, cell_update_frame_shift, vectorTraits, frame_shift_reference,
    CellState.lane, max5, max_assoc]

/-- Once the cell is known, the updated references are determined by it: two
kernel results with equal cells, built from the same entry state and gap
costs, are equal. -/
theorem result_eq_of_cell_eq {sv : Type} (T : ScoreTraits sv) (gap_extension gap_open : sv)
    (st : CellState sv) (c c' : sv) (h : c = c') :
    ((c, { horizontal_gap := T.max (T.sub st.horizontal_gap gap_extension) (T.sub c gap_open),
           vertical_gap := T.max (T.sub st.vertical_gap gap_extension) (T.sub c gap_open),
           best := T.max st.best c }) : sv × CellState sv)
      = (c', { horizontal_gap := T.max (T.sub st.horizontal_gap gap_extension) (T.sub c' gap_open),
               vertical_gap := T.max (T.sub st.vertical_gap gap_extension) (T.sub c' gap_open),
               best := T.max st.best c' }) := by
  rw [h]

/-- The frame-shift cell coincides with the Plain cell exactly when both shift
terms are dominated by the Plain cell (one lane element). -/
theorem frame_shift_cell_eq_iff (W : Nat) (a vg hg b c : Int)
    (ha : inRange W a) (hb : inRange W b) (hc : inRange W c) :
    clamp W (max (max (max (max a b) c) vg) hg) = clamp W (max (max a vg) hg)
      ↔ b ≤ clamp W (max (max a vg) hg) ∧ c ≤ clamp W (max (max a vg) hg) := by
  have h := minScore_le_maxScore W
  unfold inRange at ha hb hc
  unfold clamp
  constructor
  · intro e
    constructor <;> omega
  · rintro ⟨h1, h2⟩
    omega

/-- C4 (counterexample): on one 8-bit lane with representable inputs
(diagonal at the lane minimum, `shift_cell0 = 100`, `scores = 5`) no
representable penalty threshold makes the frame-shift kernel agree with the
Plain kernel: at the largest penalty 127 the frame-shift cell is -22 while the
Plain cell is -123. -/
theorem frame_shift_threshold_counterexample :
    lanesInRange 8 (fun (_ : Fin 1) => (-128 : Int)) ∧ lanesInRange 8 (fun (_ : Fin 1) => (100 : Int))
    ∧ lanesInRange 8 (fun (_ : Fin 1) => (5 : Int)) ∧ lanesInRange 8 (fun (_ : Fin 1) => (1 : Int))
    ∧ lanesInRange 8 (fun (_ : Fin 1) => (10 : Int))
    ∧ CellState.inRange 8 (CellState.const 1 (-128) (-128))
    ∧ ¬ ∃ t : Int, inRange 8 t ∧ ∀ p : Int, inRange 8 p → t ≤ p →
        cell_update_frame_shift (vectorTraits 8 1) (fun _ => -128) (fun _ => 100) (fun _ => -128)
            (fun _ => 5) (fun _ => 1) (fun _ => 10) ((vectorTraits 8 1).broadcast p)
            (CellState.const 1 (-128) (-128))
          = swipe_cell_update (vectorTraits 8 1) (fun _ => -128) (fun _ => 5) ()
            (fun _ => 1) (fun _ => 10)
            (CellState.const 1 (-128) (-128)) := by
  refine ⟨fun _ => (by decide : inRange 8 (-128)), fun _ => (by decide : inRange 8 100),
    fun _ => (by decide : inRange 8 5), fun _ => (by decide : inRange 8 1),
    fun _ => (by decide : inRange 8 10),
    ⟨fun _ => (by decide : inRange 8 (-128)), fun _ => (by decide : inRange 8 (-128)),
      fun _ => (by decide : inRange 8 (-128))⟩, ?_⟩
  rintro ⟨t, ht, h⟩
  have h127 : t ≤ 127 := ht.2
  have e := h 127 (by decide) h127
  have e0 := congrFun (congrArg Prod.fst e) 0
  revert e0
  decide

/-- C4 (amended): on `N` lanes of width `W`, a representable penalty threshold
above which the frame-shift `cell_update` (penalty broadcast to every lane)
returns the same cell, `best`, `horizontal_gap` and `vertical_gap` as the
Plain `swipe_cell_update` exists exactly when, at the largest representable
penalty, both shift terms `shift_cell + (scores - max_W)` are at most the Plain
cell in every lane. -/
theorem frame_shift_disabled_iff (W N : Nat)
    (diagonal shift_cell0 shift_cell1 scores gap_extension gap_open : Lanes N)
    (st : CellState (Lanes N)) :
    (∃ t : Int, inRange W t ∧ ∀ p : Int, inRange W p → t ≤ p →
        cell_update_frame_shift (vectorTraits W N) diagonal shift_cell0 shift_cell1 scores
            gap_extension gap_open ((vectorTraits W N).broadcast p) st
          = swipe_cell_update (vectorTraits W N) diagonal scores () gap_extension gap_open st)
      ↔ ∀ k : Fin N,
          satAdd W (shift_cell0 k) (satSub W (scores k) (maxScore W))
              ≤ (swipe_cell_update (vectorTraits W N) diagonal scores () gap_extension gap_open st).1 k
          ∧ satAdd W (shift_cell1 k) (satSub W (scores k) (maxScore W))
              ≤ (swipe_cell_update (vectorTraits W N) diagonal scores () gap_extension gap_open st).1 k := by
  have hmm := minScore_le_maxScore W
  have hcell : ∀ k : Fin N,
      (cell_update_frame_shift (vectorTraits W N) diagonal shift_cell0 shift_cell1 scores
            gap_extension gap_open ((vectorTraits W N).broadcast (maxScore W)) st).1 k
          = (swipe_cell_update (vectorTraits W N) diagonal scores () gap_extension gap_open st).1 k
        ↔ satAdd W (shift_cell0 k) (satSub W (scores k) (maxScore W))
              ≤ (swipe_cell_update (vectorTraits W N) diagonal scores () gap_extension gap_open st).1 k
          ∧ satAdd W (shift_cell1 k) (satSub W (scores k) (maxScore W))
              ≤ (swipe_cell_update (vectorTraits W N) diagonal scores () gap_extension gap_open st).1 k := by
    intro k
    exact frame_shift_cell_eq_iff W (satAdd W (diagonal k) (scores k)) (st.vertical_gap k)
      (st.horizontal_gap k) _ _ (clamp_inRange W _) (clamp_inRange W _) (clamp_inRange W _)
  constructor
  · rintro ⟨t, ht, h⟩ k
    have e := h (maxScore W) ⟨hmm, le_refl _⟩ ht.2
    exact (hcell k).1 (congrFun (congrArg Prod.fst e) k)
  · intro h
    refine ⟨maxScore W, ⟨hmm, le_refl _⟩, fun p hp hle => ?_⟩
    have hpe : p = maxScore W := le_antisymm hp.2 hle
    subst hpe
    exact result_eq_of_cell_eq (vectorTraits W N) gap_extension gap_open st _ _
      (funext fun k => (hcell k).2 (h k))

/-- C5: for every lane count `N`, width `W` and lane `k < N`: the `N`-lane
Plain kernel, read lane by lane, is the scalar baseline, that is `N`
independent runs of the unvectorized scalar affine-gap recurrence
`plain_reference`, one on the values of each lane; the template instantiated
at a single lane is that same scalar recurrence; and lane `k` of the result
depends on lane `k` of the inputs only: whatever the other lanes of every input
hold, lane `k` of the result is the scalar recurrence on the lane-`k` values. -/
theorem swipe_cell_update_lanewise (W N : Nat)
    (diagonal scores gap_extension gap_open : Lanes N) (st : CellState (Lanes N)) (k : Fin N) :
    (fun j => resultLane (swipe_cell_update (vectorTraits W N) diagonal scores () gap_extension
        gap_open st) j)
      = scalar_baseline W N diagonal scores gap_extension gap_open st
    ∧ resultLane (swipe_cell_update (vectorTraits W N) diagonal scores () gap_extension
        gap_open st) k
      = swipe_cell_update (scalarTraits W) (diagonal k) (scores k) () (gap_extension k)
          (gap_open k) (st.lane k)
    ∧ swipe_cell_update (scalarTraits W) (diagonal k) (scores k) () (gap_extension k)
          (gap_open k) (st.lane k)
      = plain_reference W (diagonal k) (scores k) (gap_extension k) (gap_open k) (st.lane k)
    ∧ ∀ (diagonal1 scores1 gap_extension1 gap_open1 : Lanes N) (st1 : CellState (Lanes N)),
        resultLane (swipe_cell_update (vectorTraits W N)
            (Function.update diagonal1 k (diagonal k)) (Function.update scores1 k (scores k)) ()
            (Function.update gap_extension1 k (gap_extension k))
            (Function.update gap_open1 k (gap_open k))
            { horizontal_gap := Function.update st1.horizontal_gap k (st.horizontal_gap k),
              vertical_gap := Function.update st1.vertical_gap k (st.vertical_gap k),
              best := Function.update st1.best k (st.best k) }) k
          = plain_reference W (diagonal k) (scores k) (gap_extension k) (gap_open k)
              (st.lane k) := by
  refine ⟨?_, rfl, ?_, ?_⟩
  · funext j
    simp only [resultLane, swipe_cell_update, vectorTraits, scalar_baseline, plain_reference,
      CellState.lane, max3, max_assoc]
  · simp only [swipe_cell_update, scalarTraits, plain_reference, CellState.lane, max3,
      max_assoc]
  · intro d1 s1 ge1 go1 st1
    simp only [resultLane, swipe_cell_update, vectorTraits, plain_reference, CellState.lane,
      Function.update_same, max3, max_assoc]

/-! ## Saturation -/

theorem max_inRange {W : Nat} {a b : Int} (ha : inRange W a) (hb : inRange W b) :
    inRange W (max a b) := by
  unfold inRange at ha hb ⊢
  omega

/-- Clamping commutes with `max`, and an inner clamp is absorbed. -/
theorem clamp_max_clamp (W : Nat) (a b c : Int) :
    clamp W (max (max (clamp W a) b) c) = clamp W (max a (max b c)) := by
  have h := minScore_le_maxScore W
  unfold clamp
  omega

/-- On saturating lanes of any width and a representable entry state, the cell
of the Plain kernel is the exact maximum clamped, and the updated references
are representable. -/
theorem saturating_lanes_clamp (W N : Nat)
    (diagonal scores gap_extension gap_open : Lanes N) (st : CellState (Lanes N))
    (hst : st.inRange W) (k : Fin N) :
    (swipe_cell_update (vectorTraits W N) diagonal scores () gap_extension gap_open st).1 k
        = clamp W (max3 (diagonal k + scores k) (st.vertical_gap k) (st.horizontal_gap k))
    ∧ (maxScore W < max3 (diagonal k + scores k) (st.vertical_gap k) (st.horizontal_gap k) →
        (swipe_cell_update (vectorTraits W N) diagonal scores () gap_extension gap_open st).1 k
          = maxScore W)
    ∧ inRange W ((swipe_cell_update (vectorTraits W N) diagonal scores () gap_extension
        gap_open st).2.best k)
    ∧ inRange W ((swipe_cell_update (vectorTraits W N) diagonal scores () gap_extension
        gap_open st).2.horizontal_gap k)
    ∧ inRange W ((swipe_cell_update (vectorTraits W N) diagonal scores () gap_extension
        gap_open st).2.vertical_gap k) := by
  have hmm := minScore_le_maxScore W
  have hcell : (swipe_cell_update (vectorTraits W N) diagonal scores () gap_extension
      gap_open st).1 k
        = clamp W (max3 (diagonal k + scores k) (st.vertical_gap k) (st.horizontal_gap k)) :=
    clamp_max_clamp W _ _ _
  obtain ⟨_, _, hb⟩ := hst
  have hbk := hb k
  refine ⟨hcell, ?_, ?_, ?_, ?_⟩
  · intro hgt
    rw [hcell]
    unfold clamp
    omega
  · exact max_inRange hbk (clamp_inRange W _)
  · exact max_inRange (clamp_inRange W _) (clamp_inRange W _)
  · exact max_inRange (clamp_inRange W _) (clamp_inRange W _)

/-- C6 (counterexample): the 32-bit lane is the built-in `int32_t`.  With
representable inputs `diagonal = INT_MAX`, `scores = 1`, `vertical_gap = 50`
the exact value `INT_MAX + 1` clamps to `INT_MAX`, but the sum wraps to
`INT_MIN` and the kernel (with `saturate` the clamp of the specification)
returns 50.  Whatever `saturate` is, the claim cannot hold both at
`diagonal = INT_MAX`, `scores = 1` and at `diagonal = INT_MIN`, `scores = 0`
(gaps at `INT_MIN`): the kernel saturates the same value `INT_MIN` in both
calls, while the clamped exact values are `INT_MAX` and `INT_MIN`. -/
theorem int32_lane_wraps_counterexample :
    inRange 32 (2 ^ 31 - 1) ∧ inRange 32 1 ∧ inRange 32 0 ∧ inRange 32 50 ∧ inRange 32 10
    ∧ inRange 32 (-(2 ^ 31))
    ∧ clamp 32 (max3 (2 ^ 31 - 1 + 1) 50 (-(2 ^ 31))) = maxScore 32
    ∧ (swipe_cell_update (int32Traits (clamp 32)) (2 ^ 31 - 1) 1 () 1 10
        { horizontal_gap := -(2 ^ 31), vertical_gap := 50, best := 0 }).1 = 50
    ∧ ¬ ∃ saturate : Int → Int,
        (swipe_cell_update (int32Traits saturate) (2 ^ 31 - 1) 1 () 1 10
            { horizontal_gap := -(2 ^ 31), vertical_gap := -(2 ^ 31), best := 0 }).1
          = clamp 32 (max3 (2 ^ 31 - 1 + 1) (-(2 ^ 31)) (-(2 ^ 31)))
        ∧ (swipe_cell_update (int32Traits saturate) (-(2 ^ 31)) 0 () 1 10
            { horizontal_gap := -(2 ^ 31), vertical_gap := -(2 ^ 31), best := 0 }).1
          = clamp 32 (max3 (-(2 ^ 31) + 0) (-(2 ^ 31)) (-(2 ^ 31))) := by
  refine ⟨by decide, by decide, by decide, by decide, by decide, by decide, by decide,
    by decide, ?_⟩
  rintro ⟨saturate, hA, hB⟩
  have eA : (swipe_cell_update (int32Traits saturate) (2 ^ 31 - 1) 1 () 1 10
      { horizontal_gap := -(2 ^ 31), vertical_gap := -(2 ^ 31), best := 0 }).1
      = saturate (-(2 ^ 31)) :=
    congrArg saturate
      (by decide : max (max (int32 (2 ^ 31 - 1 + 1)) (-(2 ^ 31))) (-(2 ^ 31)) = (-(2 ^ 31) : Int))
  have eB : (swipe_cell_update (int32Traits saturate) (-(2 ^ 31)) 0 () 1 10
      { horizontal_gap := -(2 ^ 31), vertical_gap := -(2 ^ 31), best := 0 }).1
      = saturate (-(2 ^ 31)) :=
    congrArg saturate
      (by decide : max (max (int32 (-(2 ^ 31) + 0)) (-(2 ^ 31))) (-(2 ^ 31)) = (-(2 ^ 31) : Int))
  have cA : clamp 32 (max3 (2 ^ 31 - 1 + 1) (-(2 ^ 31)) (-(2 ^ 31))) = 2 ^ 31 - 1 := by decide
  have cB : clamp 32 (max3 (-(2 ^ 31) + 0) (-(2 ^ 31)) (-(2 ^ 31))) = -(2 ^ 31) := by decide
  rw [eA, cA] at hA
  rw [eB, cB, hA] at hB
  exact absurd hB (by decide)

/-- C6 (amended): for the saturating score vectors of lane width 8 and 16 and
a representable entry state, the cell returned by the Plain kernel is in every
lane the exact integer `max(diagonal + scores, vertical_gap, horizontal_gap)`
clamped into `[min_W, max_W]`, hence `max_W` whenever the exact value exceeds
`max_W`; `best`, `horizontal_gap` and `vertical_gap` after the call are
representable. -/
theorem swipe_cell_update_saturates (W N : Nat) (hW : W = 8 ∨ W = 16)
    (diagonal scores gap_extension gap_open : Lanes N) (st : CellState (Lanes N))
    (hst : st.inRange W) (k : Fin N) :
    (swipe_cell_update (vectorTraits W N) diagonal scores () gap_extension gap_open st).1 k
        = clamp W (max3 (diagonal k + scores k) (st.vertical_gap k) (st.horizontal_gap k))
    ∧ (maxScore W < max3 (diagonal k + scores k) (st.vertical_gap k) (st.horizontal_gap k) →
        (swipe_cell_update (vectorTraits W N) diagonal scores () gap_extension gap_open st).1 k
          = maxScore W)
    ∧ inRange W ((swipe_cell_update (vectorTraits W N) diagonal scores () gap_extension
        gap_open st).2.best k)
    ∧ inRange W ((swipe_cell_update (vectorTraits W N) diagonal scores () gap_extension
        gap_open st).2.horizontal_gap k)
    ∧ inRange W ((swipe_cell_update (vectorTraits W N) diagonal scores () gap_extension
        gap_open st).2.vertical_gap k) := by
  rcases hW with rfl | rfl
  · exact saturating_lanes_clamp 8 N diagonal scores gap_extension gap_open st hst k
  · exact saturating_lanes_clamp 16 N diagonal scores gap_extension gap_open st hst k

/-- C6 (amended, witness): two 8-bit lanes, lane 0 with `diagonal + scores =
200`: the entry state is representable and the returned cell is 127 there. -/
theorem swipe_cell_update_saturates_witness :
    (8 = 8 ∨ 8 = 16)
    ∧ CellState.inRange 8 (CellState.const 2 (-128) 0)
    ∧ (swipe_cell_update (vectorTraits 8 2) (fun k => if k = 0 then 100 else 3)
        (fun k => if k = 0 then 100 else 4) () (fun _ => 1) (fun _ => 10)
        (CellState.const 2 (-128) 0)).1 0
      = maxScore 8 :=
  ⟨Or.inl rfl,
    ⟨fun _ => (by decide : inRange 8 (-128)), fun _ => (by decide : inRange 8 (-128)),
      fun _ => (by decide : inRange 8 0)⟩,
    (swipe_cell_update_saturates 8 2 (Or.inl rfl) (fun k => if k = 0 then 100 else 3)
      (fun k => if k = 0 then 100 else 4) (fun _ => 1) (fun _ => 10)
      (CellState.const 2 (-128) 0)
      ⟨fun _ => (by decide : inRange 8 (-128)), fun _ => (by decide : inRange 8 (-128)),
        fun _ => (by decide : inRange 8 0)⟩ 0).2.1 (by decide)⟩

theorem minScore_nonpos (W : Nat) : minScore W ≤ 0 := by
  unfold minScore
  have h : (1 : Int) ≤ 2 ^ (W - 1) := one_le_pow₀ (by norm_num)
  omega

/-- Clamping never lifts a value above a non-negative bound. -/
theorem clamp_le_of_le (W : Nat) {x b : Int} (hb : 0 ≤ b) (h : x ≤ b) : clamp W x ≤ b := by
  have h0 := minScore_nonpos W
  unfold clamp
  omega

theorem sweep_row_length {α : Type} (W : Nat) (matrix : α → α → Int)
    (gap_extension gap_open : Int) (q : α) (cs : List (Column α)) :
    ∀ diagonal horizontal_gap best : Int,
      (sweep_row W matrix gap_extension gap_open q cs diagonal horizontal_gap best).1.length
        = cs.length := by
  induction cs with
  | nil => intro _ _ _; rfl
  | cons c cs ih =>
    intro d h b
    simp only [sweep_row, List.length_cons, ih]

/-- One query row keeps the index-dependent bound: entering row `i + 1` at
target position `j` with everything bounded by `5 * min`, the row leaves the
columns bounded for `i + 1` rows and `best` at most
`max best (5 * min(i + 1, j + number of columns))`. -/
theorem sweep_row_bounded {α : Type} (W : Nat) (matrix : α → α → Int)
    (gap_extension gap_open : Int) (hm : ∀ a b, matrix a b ≤ 5)
    (hge : 0 ≤ gap_extension) (hgo : 0 ≤ gap_open) (q : α) (i : Nat) (cs : List (Column α)) :
    ∀ (j : Nat) (diagonal horizontal_gap best : Int),
      ColsBounded i j cs →
      diagonal ≤ 5 * min (i : Int) (j : Int) →
      horizontal_gap ≤ 5 * min ((i : Int) + 1) (j : Int) →
      ColsBounded (i + 1) j
          (sweep_row W matrix gap_extension gap_open q cs diagonal horizontal_gap best).1
        ∧ (sweep_row W matrix gap_extension gap_open q cs diagonal horizontal_gap best).2
            ≤ max best (5 * min ((i : Int) + 1) ((j : Int) + cs.length)) := by
  induction cs with
  | nil =>
    intro j d h b _ _ _
    simp [sweep_row, ColsBounded]
  | cons c cs ih =>
    intro j d h b hcols hd hh
    obtain ⟨hcs, hcv, hrest⟩ := hcols
    have hmq := hm q c.residue
    have hb0 : (0 : Int) ≤ 5 * min ((i : Int) + 1) ((j : Int) + 1) := by omega
    -- the cell of this column
    have hcell : clamp W (max (max (clamp W (d + matrix q c.residue)) c.vertical_gap) h)
        ≤ 5 * min ((i : Int) + 1) ((j : Int) + 1) := by
      apply clamp_le_of_le W hb0
      have h1 : clamp W (d + matrix q c.residue) ≤ 5 * min ((i : Int) + 1) ((j : Int) + 1) :=
        clamp_le_of_le W hb0 (by omega)
      omega
    have hv : max (clamp W (c.vertical_gap - gap_extension))
        (clamp W (clamp W (max (max (clamp W (d + matrix q c.residue)) c.vertical_gap) h)
          - gap_open)) ≤ 5 * min ((i : Int) + 1) ((j : Int) + 1) := by
      have h1 : clamp W (c.vertical_gap - gap_extension)
          ≤ 5 * min ((i : Int) + 1) ((j : Int) + 1) := clamp_le_of_le W hb0 (by omega)
      have h2 : clamp W (clamp W (max (max (clamp W (d + matrix q c.residue)) c.vertical_gap) h)
          - gap_open) ≤ 5 * min ((i : Int) + 1) ((j : Int) + 1) :=
        clamp_le_of_le W hb0 (by omega)
      omega
    have hhz : max (clamp W (h - gap_extension))
        (clamp W (clamp W (max (max (clamp W (d + matrix q c.residue)) c.vertical_gap) h)
          - gap_open)) ≤ 5 * min ((i : Int) + 1) ((j : Int) + 1) := by
      have h1 : clamp W (h - gap_extension)
          ≤ 5 * min ((i : Int) + 1) ((j : Int) + 1) := clamp_le_of_le W hb0 (by omega)
      have h2 : clamp W (clamp W (max (max (clamp W (d + matrix q c.residue)) c.vertical_gap) h)
          - gap_open) ≤ 5 * min ((i : Int) + 1) ((j : Int) + 1) :=
        clamp_le_of_le W hb0 (by omega)
      omega
    have hnext := ih (j + 1) c.score
      (max (clamp W (h - gap_extension))
        (clamp W (clamp W (max (max (clamp W (d + matrix q c.residue)) c.vertical_gap) h)
          - gap_open)))
      (max b (clamp W (max (max (clamp W (d + matrix q c.residue)) c.vertical_gap) h)))
      hrest (by push_cast; omega) (by push_cast; exact hhz)
    obtain ⟨hn1, hn2⟩ := hnext
    refine ⟨⟨?_, ?_, hn1⟩, ?_⟩
    · show max (clamp W (max (max (clamp W (d + matrix q c.residue)) c.vertical_gap) h)) 0
        ≤ 5 * min (((i + 1 : Nat) : Int)) ((j : Int) + 1)
      push_cast
      omega
    · show max (clamp W (c.vertical_gap - gap_extension))
        (clamp W (clamp W (max (max (clamp W (d + matrix q c.residue)) c.vertical_gap) h)
          - gap_open)) ≤ 5 * min (((i + 1 : Nat) : Int)) ((j : Int) + 1)
      push_cast
      exact hv
    · have hlen : (((c :: cs).length : Nat) : Int) = (cs.length : Int) + 1 := by simp
      rw [hlen]
      push_cast at hn2
      have hn2 : (sweep_row W matrix gap_extension gap_open q (c :: cs) d h b).2
          ≤ max (max b (clamp W (max (max (clamp W (d + matrix q c.residue)) c.vertical_gap) h)))
              (5 * min ((i : Int) + 1) ((j : Int) + 1 + cs.length)) := hn2
      omega

/-- After `i` rows with bounded columns, the remaining rows leave `best` at most
`5 * min(i + remaining rows, number of columns)`. -/
theorem sweep_rows_bounded {α : Type} (W : Nat) (matrix : α → α → Int)
    (gap_extension gap_open gap_init : Int) (hm : ∀ a b, matrix a b ≤ 5)
    (hge : 0 ≤ gap_extension) (hgo : 0 ≤ gap_open) (hgi : gap_init ≤ 0) (qs : List α) :
    ∀ (i : Nat) (cols : List (Column α)) (best : Int),
      ColsBounded i 0 cols →
      best ≤ 5 * min (i : Int) (cols.length : Int) →
      (sweep_rows W matrix gap_extension gap_open gap_init qs cols best).2
        ≤ 5 * min ((i : Int) + qs.length) (cols.length : Int) := by
  induction qs with
  | nil =>
    intro i cols best _ hb
    simpa [sweep_rows] using hb
  | cons q qs ih =>
    intro i cols best hcols hb
    have hrow := sweep_row_bounded W matrix gap_extension gap_open hm hge hgo q i cols 0 0
      gap_init best hcols (by simp) (by simp; omega)
    obtain ⟨h1, h2⟩ := hrow
    have hlen := sweep_row_length W matrix gap_extension gap_open q cols 0 gap_init best
    have hnext := ih (i + 1) (sweep_row W matrix gap_extension gap_open q cols 0 gap_init best).1
      (sweep_row W matrix gap_extension gap_open q cols 0 gap_init best).2 h1
      (by rw [hlen]; push_cast at h2 ⊢; omega)
    rw [hlen] at hnext
    have hl : (((q :: qs).length : Nat) : Int) = (qs.length : Int) + 1 := by simp
    rw [hl]
    push_cast at hnext
    have hnext2 : (sweep_rows W matrix gap_extension gap_open gap_init (q :: qs) cols best).2
        ≤ 5 * min ((i : Int) + 1 + qs.length) (cols.length : Int) := hnext
    omega

/-- The columns the sweep starts from are bounded for zero rows. -/
theorem initial_cols_bounded {α : Type} (gap_init : Int) (hgi : gap_init ≤ 0)
    (target : List α) :
    ∀ j : Nat, ColsBounded 0 j
      (target.map fun t => ({ residue := t, score := 0, vertical_gap := gap_init } : Column α)) := by
  induction target with
  | nil => intro j; trivial
  | cons t ts ih =>
    intro j
    refine ⟨?_, ?_, ih (j + 1)⟩
    · show (0 : Int) ≤ 5 * min ((0 : Nat) : Int) ((j : Int) + 1)
      push_cast
      omega
    · show gap_init ≤ 5 * min ((0 : Nat) : Int) ((j : Int) + 1)
      push_cast
      omega

theorem identity_matrix_le {α : Type} [DecidableEq α] (a b : α) : identity_matrix a b ≤ 5 := by
  unfold identity_matrix
  split <;> omega

set_option maxRecDepth 100000 in
/-- C8: for every lane width, query and target, the full-matrix sweep with the
identity-biased matrix (match 5, mismatch -4), `gap_open = 10` and
`gap_extension = 1` ends with a best score of at most
`5 * min(|query|, |target|)`; for query "AAAA" and target "AA" the best score
is exactly 10 at the lane widths 8, 16 and 32. -/
theorem sweep_best_le {α : Type} [DecidableEq α] (W : Nat) (query target : List α) :
    sweep W identity_matrix 1 10 query target
        ≤ 5 * min (query.length : Int) (target.length : Int)
    ∧ sweep 8 identity_matrix 1 10 ['A', 'A', 'A', 'A'] ['A', 'A'] = 10
    ∧ sweep 16 identity_matrix 1 10 ['A', 'A', 'A', 'A'] ['A', 'A'] = 10
    ∧ sweep 32 identity_matrix 1 10 ['A', 'A', 'A', 'A'] ['A', 'A'] = 10 := by
  refine ⟨?_, by decide, by decide, by decide⟩
  have hgi : satSub W 0 10 ≤ 0 := clamp_le_of_le W (le_refl 0) (by omega)
  have h := sweep_rows_bounded W (identity_matrix : α → α → Int) 1 10 (satSub W 0 10)
    identity_matrix_le (by omega) (by omega) hgi query 0
    (target.map fun t => ({ residue := t, score := 0, vertical_gap := satSub W 0 10 } : Column α))
    0 (initial_cols_bounded _ hgi target 0) (by simp)
  simpa [sweep] using h

/-! ## `BlastDB::read_seq_data` -/

/-- For a letter and a table smaller than `2 ^ 63` bytes, the test of the loop,
`l >= sizeof(NCBI_TO_STD) || NCBI_TO_STD[l] == -1`, holds exactly for the
unrecognised codes. -/
theorem loop_test_iff (NCBI_TO_STD : List Int) (htab : (NCBI_TO_STD.length : Int) < 2 ^ 63)
    (l : Int) (hl : isLetter l) :
    ((NCBI_TO_STD.length : Int) ≤ size_t l ∨ NCBI_TO_STD.getD l.toNat 0 = -1)
      ↔ unrecognized_code NCBI_TO_STD l := by
  unfold isLetter at hl
  unfold unrecognized_code size_t
  by_cases hneg : l < 0
  · have h1 : (NCBI_TO_STD.length : Int) ≤ l % 2 ^ 64 := by omega
    exact ⟨fun _ => Or.inl hneg, fun _ => Or.inl h1⟩
  · have h1 : l % 2 ^ 64 = l := by omega
    rw [h1]
    by_cases hge : (NCBI_TO_STD.length : Int) ≤ l
    · exact ⟨fun _ => Or.inr (Or.inl hge), fun _ => Or.inl hge⟩
    · have hlt : l.toNat < NCBI_TO_STD.length := by omega
      have hget : NCBI_TO_STD[l.toNat]? = some (NCBI_TO_STD.getD l.toNat 0) := by
        rw [List.getD_eq_getElem?_getD, List.getElem?_eq_getElem hlt]
        rfl
      constructor
      · rintro (h | h)
        · exact absurd h hge
        · right; right; rw [hget, h]
      · rintro (h | h | h)
        · exact absurd h hneg
        · exact absurd h hge
        · right
          rw [hget] at h
          exact Option.some.inj h

/-- The loop raises exactly when some residue still to read fails its test. -/
theorem read_seq_data_loop_error_iff (NCBI_TO_STD : List Int) (id : String) (buf : List Int) :
    ∀ (i : Nat) (dst : Int) (mem : Memory),
      (∃ e, (read_seq_data_loop NCBI_TO_STD id buf i dst mem).2 = .error e)
        ↔ ∃ l ∈ buf, (NCBI_TO_STD.length : Int) ≤ size_t l ∨ NCBI_TO_STD.getD l.toNat 0 = -1 := by
  induction buf with
  | nil =>
    intro i dst mem
    simp [read_seq_data_loop]
  | cons x xs ih =>
    intro i dst mem
    by_cases hx : (NCBI_TO_STD.length : Int) ≤ size_t x ∨ NCBI_TO_STD.getD x.toNat 0 = -1
    · simp only [read_seq_data_loop, if_pos hx]
      exact ⟨fun _ => ⟨x, List.mem_cons_self _ _, hx⟩, fun _ => ⟨_, rfl⟩⟩
    · simp only [read_seq_data_loop, if_neg hx]
      rw [ih]
      constructor
      · rintro ⟨l, hl, hb⟩
        exact ⟨l, List.mem_cons_of_mem _ hl, hb⟩
      · rintro ⟨l, hl, hb⟩
        rcases List.mem_cons.1 hl with rfl | hl
        · exact absurd hb hx
        · exact ⟨l, hl, hb⟩

/-- The loop raises at the first residue that fails its test, naming that
residue, the sequence id and the index of the residue. -/
theorem read_seq_data_loop_first (NCBI_TO_STD : List Int) (id : String) (buf : List Int) :
    ∀ (i0 : Nat) (dst : Int) (mem : Memory) (i : Nat) (l : Int),
      buf[i]? = some l →
      ((NCBI_TO_STD.length : Int) ≤ size_t l ∨ NCBI_TO_STD.getD l.toNat 0 = -1) →
      (∀ j x, j < i → buf[j]? = some x →
        ¬ ((NCBI_TO_STD.length : Int) ≤ size_t x ∨ NCBI_TO_STD.getD x.toNat 0 = -1)) →
      (read_seq_data_loop NCBI_TO_STD id buf i0 dst mem).2 = .error (.unrecognized l id (i0 + i)) := by
  induction buf with
  | nil =>
    intro i0 dst mem i l h
    simp at h
  | cons x xs ih =>
    intro i0 dst mem i l h hb hfirst
    cases i with
    | zero =>
      simp only [List.getElem?_cons_zero, Option.some.injEq] at h
      subst h
      simp only [read_seq_data_loop, if_pos hb, Nat.add_zero]
    | succ k =>
      have hx := hfirst 0 x (Nat.succ_pos k) (by simp)
      simp only [List.getElem?_cons_succ] at h
      simp only [read_seq_data_loop, if_neg hx]
      rw [ih (i0 + 1) (dst + 1) _ k l h hb
        (fun j y hj hy => hfirst (j + 1) y (Nat.succ_lt_succ hj) (by simpa using hy))]
      congr 2
      omega

/-- C9: with the stored length an `int`, the stored residues letters and the
table smaller than `2 ^ 63` bytes, `read_seq_data(dst, len)` raises exactly
when the stored sequence at `oid_seqdata_` has a length other than `len` or
some stored residue `buf[i]`, `i < len`, is an unrecognised code; when the
length is `len`, the error raised names the first such residue, the sequence id
and its index `i`. -/
theorem read_seq_data_raises_iff (NCBI_TO_STD : List Int) (DELIMITER : Int) (self : BlastDB)
    (mem : Memory) (dst : Int) (len : Nat)
    (hint : ((self.db_.GetSequence self.oid_seqdata_).length : Int) < 2 ^ 31)
    (htab : (NCBI_TO_STD.length : Int) < 2 ^ 63)
    (hlet : ∀ l ∈ self.db_.GetSequence self.oid_seqdata_, isLetter l) :
    ((∃ e, (self.read_seq_data NCBI_TO_STD DELIMITER mem dst len).2 = .error e)
        ↔ ((self.db_.GetSequence self.oid_seqdata_).length ≠ len
            ∨ ∃ i l, i < len ∧ (self.db_.GetSequence self.oid_seqdata_)[i]? = some l
                ∧ unrecognized_code NCBI_TO_STD l))
    ∧ ((self.db_.GetSequence self.oid_seqdata_).length = len →
        ∀ i l, (self.db_.GetSequence self.oid_seqdata_)[i]? = some l →
          unrecognized_code NCBI_TO_STD l →
          (∀ j x, j < i → (self.db_.GetSequence self.oid_seqdata_)[j]? = some x →
            ¬ unrecognized_code NCBI_TO_STD x) →
          (self.read_seq_data NCBI_TO_STD DELIMITER mem dst len).2
            = .error (.unrecognized l (self.db_.GetSeqIdString self.oid_seqdata_) i)) := by
  have hsz : size_t ((self.db_.GetSequence self.oid_seqdata_).length : Int)
      = ((self.db_.GetSequence self.oid_seqdata_).length : Int) := by
    unfold size_t
    omega
  constructor
  · by_cases hlen : (self.db_.GetSequence self.oid_seqdata_).length = len
    · have hc : ¬ size_t ((self.db_.GetSequence self.oid_seqdata_).length : Int) ≠ (len : Int) := by
        rw [hsz, hlen]
        simp
      simp only [BlastDB.read_seq_data, if_neg hc]
      rw [read_seq_data_loop_error_iff]
      constructor
      · rintro ⟨l, hl, hb⟩
        right
        obtain ⟨i, hi, hget⟩ := List.mem_iff_getElem.1 hl
        refine ⟨i, l, by omega, ?_, (loop_test_iff NCBI_TO_STD htab l (hlet l hl)).1 hb⟩
        rw [List.getElem?_eq_getElem hi, hget]
      · rintro (h | ⟨i, l, _, hget, hb⟩)
        · exact absurd hlen h
        · have hl : l ∈ self.db_.GetSequence self.oid_seqdata_ := List.getElem?_mem hget
          exact ⟨l, hl, (loop_test_iff NCBI_TO_STD htab l (hlet l hl)).2 hb⟩
    · have hc : size_t ((self.db_.GetSequence self.oid_seqdata_).length : Int) ≠ (len : Int) := by
        rw [hsz]
        exact_mod_cast hlen
      simp only [BlastDB.read_seq_data, if_pos hc]
      exact ⟨fun _ => Or.inl hlen, fun _ => ⟨_, rfl⟩⟩
  · intro hlen i l hget hb hfirst
    have hc : ¬ size_t ((self.db_.GetSequence self.oid_seqdata_).length : Int) ≠ (len : Int) := by
      rw [hsz, hlen]
      simp
    simp only [BlastDB.read_seq_data, if_neg hc]
    have hl : l ∈ self.db_.GetSequence self.oid_seqdata_ := List.getElem?_mem hget
    have h := read_seq_data_loop_first NCBI_TO_STD (self.db_.GetSeqIdString self.oid_seqdata_)
      (self.db_.GetSequence self.oid_seqdata_) 0 dst
      (Function.update (Function.update mem (dst - 1) DELIMITER) (dst + len) DELIMITER) i l hget
      ((loop_test_iff NCBI_TO_STD htab l (hlet l hl)).2 hb)
      (fun j x hj hx hbad => hfirst j x hj hx
        ((loop_test_iff NCBI_TO_STD htab x (hlet x (List.getElem?_mem hx))).1 hbad))
    simpa using h

/-- C9 (witness): the stored residues `[1, 2, 0]` read with `len = 3` against
the table `[-1, 5, 6, 7]`: code 0 maps to -1, and the error names residue 0 of
sequence "seq1" at index 2. -/
theorem read_seq_data_raises_iff_witness :
    ((([1, 2, 0] : List Int).length : Int) < 2 ^ 31)
    ∧ ((([-1, 5, 6, 7] : List Int).length : Int) < 2 ^ 63)
    ∧ (∀ l ∈ ([1, 2, 0] : List Int), isLetter l)
    ∧ (BlastDB.read_seq_data [-1, 5, 6, 7] 31
          { db_ := CSeqDB.single [1, 2, 0] "seq1", oid_ := 0, oid_seqdata_ := 0 }
          (fun _ => 0) 10 3).2
        = .error (.unrecognized 0 "seq1" 2) :=
  ⟨by decide, by decide, by decide,
    (read_seq_data_raises_iff [-1, 5, 6, 7] 31
      { db_ := CSeqDB.single [1, 2, 0] "seq1", oid_ := 0, oid_seqdata_ := 0 }
      (fun _ => 0) 10 3 (by decide) (by decide) (by decide)).2 rfl 2 0 rfl (by decide)
      (fun j x hj hx => by
        have hx2 : ([1, 2, 0] : List Int)[j]? = some x := hx
        interval_cases j
        · simp only [List.getElem?_cons_zero, Option.some.injEq] at hx2
          subst hx2
          decide
        · simp only [List.getElem?_cons_succ, List.getElem?_cons_zero, Option.some.injEq] at hx2
          subst hx2
          decide)⟩

/-- A run of the loop that does not raise has passed the test at every residue,
has stored the table entry of residue `k` at `dst + k`, and has written nowhere
else. -/
theorem read_seq_data_loop_ok (NCBI_TO_STD : List Int) (id : String) (buf : List Int) :
    ∀ (i0 : Nat) (dst : Int) (mem mem1 : Memory),
      read_seq_data_loop NCBI_TO_STD id buf i0 dst mem = (mem1, .ok ()) →
      (∀ (k : Nat) (l : Int), buf[k]? = some l →
          ¬ ((NCBI_TO_STD.length : Int) ≤ size_t l ∨ NCBI_TO_STD.getD l.toNat 0 = -1)
          ∧ mem1 (dst + k) = NCBI_TO_STD.getD l.toNat 0)
      ∧ ∀ a : Int, a < dst ∨ dst + buf.length ≤ a → mem1 a = mem a := by
  induction buf with
  | nil =>
    intro i0 dst mem mem1 h
    simp only [read_seq_data_loop, Prod.mk.injEq] at h
    refine ⟨fun k l hk => by simp at hk, fun a _ => by rw [h.1]⟩
  | cons x xs ih =>
    intro i0 dst mem mem1 h
    by_cases hx : (NCBI_TO_STD.length : Int) ≤ size_t x ∨ NCBI_TO_STD.getD x.toNat 0 = -1
    · simp only [read_seq_data_loop, if_pos hx, Prod.mk.injEq] at h
      exact absurd h.2 (by simp)
    · simp only [read_seq_data_loop, if_neg hx] at h
      obtain ⟨h1, h2⟩ := ih (i0 + 1) (dst + 1) _ mem1 h
      constructor
      · intro k l hk
        cases k with
        | zero =>
          simp only [List.getElem?_cons_zero, Option.some.injEq] at hk
          subst hk
          refine ⟨hx, ?_⟩
          have := h2 dst (Or.inl (by omega))
          simpa using this
        | succ k =>
          simp only [List.getElem?_cons_succ] at hk
          obtain ⟨ha, hb⟩ := h1 k l hk
          refine ⟨ha, ?_⟩
          rw [← hb]
          congr 1
          push_cast
          omega
      · intro a ha
        have hlen : (((x :: xs).length : Nat) : Int) = (xs.length : Int) + 1 := by simp
        rw [hlen] at ha
        have := h2 a (by omega)
        rw [this, Function.update_noteq (by omega)]

/-- C10: with the stored length an `int`, the stored residues letters and the
table smaller than `2 ^ 63` bytes, whenever `read_seq_data(dst, len)` returns
without raising, the stored sequence has exactly `len` residues, `dst[i]` is
the table entry `NCBI_TO_STD[buf[i]]` for every `i < len` and is never -1, the
delimiter stands at `dst[-1]` and at `dst[len]`, and no address outside
`dst - 1 .. dst + len` was written. -/
theorem read_seq_data_ok (NCBI_TO_STD : List Int) (DELIMITER : Int) (self : BlastDB)
    (mem mem1 : Memory) (dst : Int) (len : Nat)
    (hint : ((self.db_.GetSequence self.oid_seqdata_).length : Int) < 2 ^ 31)
    (htab : (NCBI_TO_STD.length : Int) < 2 ^ 63)
    (hlet : ∀ l ∈ self.db_.GetSequence self.oid_seqdata_, isLetter l)
    (hok : self.read_seq_data NCBI_TO_STD DELIMITER mem dst len = (mem1, .ok ())) :
    (self.db_.GetSequence self.oid_seqdata_).length = len
    ∧ (∀ i : Nat, i < len → ∃ l : Int,
        (self.db_.GetSequence self.oid_seqdata_)[i]? = some l
        ∧ 0 ≤ l ∧ NCBI_TO_STD[l.toNat]? = some (mem1 (dst + i)) ∧ mem1 (dst + i) ≠ -1)
    ∧ mem1 (dst - 1) = DELIMITER
    ∧ mem1 (dst + len) = DELIMITER
    ∧ ∀ a : Int, a < dst - 1 ∨ dst + len < a → mem1 a = mem a := by
  have hsz : size_t ((self.db_.GetSequence self.oid_seqdata_).length : Int)
      = ((self.db_.GetSequence self.oid_seqdata_).length : Int) := by
    unfold size_t
    omega
  by_cases hc : size_t ((self.db_.GetSequence self.oid_seqdata_).length : Int) ≠ (len : Int)
  · simp only [BlastDB.read_seq_data, if_pos hc, Prod.mk.injEq] at hok
    exact absurd hok.2 (by simp)
  · simp only [BlastDB.read_seq_data, if_neg hc] at hok
    have hlen : (self.db_.GetSequence self.oid_seqdata_).length = len := by
      rw [hsz] at hc
      push_neg at hc
      exact_mod_cast hc
    obtain ⟨h1, h2⟩ := read_seq_data_loop_ok NCBI_TO_STD _ _ 0 dst _ mem1 hok
    rw [hlen] at h2
    refine ⟨hlen, ?_, ?_, ?_, ?_⟩
    · intro i hi
      have hi2 : i < (self.db_.GetSequence self.oid_seqdata_).length := by omega
      refine ⟨(self.db_.GetSequence self.oid_seqdata_)[i], List.getElem?_eq_getElem hi2, ?_⟩
      obtain ⟨ha, hb⟩ := h1 i _ (List.getElem?_eq_getElem hi2)
      have hl := hlet _ (List.getElem_mem hi2)
      have hun : ¬ unrecognized_code NCBI_TO_STD (self.db_.GetSequence self.oid_seqdata_)[i] :=
        fun hu => ha ((loop_test_iff NCBI_TO_STD htab _ hl).2 hu)
      unfold unrecognized_code at hun
      push_neg at hun
      obtain ⟨hn, hs, _⟩ := hun
      have hlt : ((self.db_.GetSequence self.oid_seqdata_)[i]).toNat < NCBI_TO_STD.length := by
        omega
      refine ⟨hn, ?_, ?_⟩
      · rw [hb, List.getD_eq_getElem?_getD, List.getElem?_eq_getElem hlt]
        rfl
      · rw [hb]
        exact fun h => ha (Or.inr h)
    · rw [h2 (dst - 1) (Or.inl (by omega))]
      by_cases he : dst - 1 = dst + len
      · rw [he]; simp
      · rw [Function.update_noteq he]; simp
    · rw [h2 (dst + len) (Or.inr (le_refl _))]
      simp
    · intro a ha
      rw [h2 a (by omega), Function.update_noteq (by omega), Function.update_noteq (by omega)]

/-- C10 (witness): the stored residues `[1, 2, 3]` read with `len = 3` against
the table `[-1, 5, 6, 7]` at `dst = 10`: the call returns and leaves 5 at
`dst[0]` between the delimiters at `dst[-1]` and `dst[3]`. -/
theorem read_seq_data_ok_witness :
    ((([1, 2, 3] : List Int).length : Int) < 2 ^ 31)
    ∧ ((([-1, 5, 6, 7] : List Int).length : Int) < 2 ^ 63)
    ∧ (∀ l ∈ ([1, 2, 3] : List Int), isLetter l)
    ∧ (BlastDB.read_seq_data [-1, 5, 6, 7] 31
          { db_ := CSeqDB.single [1, 2, 3] "seq1", oid_ := 0, oid_seqdata_ := 0 }
          (fun _ => 0) 10 3).2 = .ok ()
    ∧ (BlastDB.read_seq_data [-1, 5, 6, 7] 31
          { db_ := CSeqDB.single [1, 2, 3] "seq1", oid_ := 0, oid_seqdata_ := 0 }
          (fun _ => 0) 10 3).1 (10 - 1) = 31 :=
  ⟨by decide, by decide, by decide, rfl,
    (read_seq_data_ok [-1, 5, 6, 7] 31
      { db_ := CSeqDB.single [1, 2, 3] "seq1", oid_ := 0, oid_seqdata_ := 0 }
      (fun _ => 0) _ 10 3 (by decide) (by decide) (by decide) rfl).2.2.1⟩

/-! ## `BlastDB::read_seqinfo` and `putback_seqinfo` -/

/-- Incrementing an `int` below its maximum does not wrap. -/
theorem int32_succ {x : Int} (h : -(2 ^ 31) ≤ x ∧ x < 2 ^ 31 - 1) : int32 (x + 1) = x + 1 := by
  unfold int32
  omega

/-- Decrementing after incrementing gives back an `int`. -/
theorem int32_pred_succ {x : Int} (h : isInt32 x) : int32 (int32 (x + 1) - 1) = x := by
  unfold isInt32 at h
  unfold int32
  omega

/-- C11: for `oid_` an `int` below its maximum, `read_seqinfo` raises exactly
when `oid_` is below the number of sequences and the sequence at `oid_` has
length 0, and then leaves the reader, `oid_` included, unchanged; when `oid_`
is below the number of sequences and the length is not 0 it returns
`SeqInfo(oid_, length)` with `length > 0` and advances `oid_` by one; when
`oid_` is at or past the number of sequences it returns `SeqInfo(0, 0)` and
advances `oid_` by one. -/
theorem read_seqinfo_spec {σ : Type} (SeqInfo : Int → Int → σ) (self : BlastDB)
    (h : -(2 ^ 31) ≤ self.oid_ ∧ self.oid_ < 2 ^ 31 - 1) :
    ((∃ e, (self.read_seqinfo SeqInfo).2 = .error e)
        ↔ (self.oid_ < self.db_.GetNumSeqs ∧ (self.db_.GetSequence self.oid_).length = 0))
    ∧ ((∃ e, (self.read_seqinfo SeqInfo).2 = .error e) → (self.read_seqinfo SeqInfo).1 = self)
    ∧ (self.oid_ < self.db_.GetNumSeqs → (self.db_.GetSequence self.oid_).length ≠ 0 →
        (self.read_seqinfo SeqInfo).2
            = .ok (SeqInfo self.oid_ ((self.db_.GetSequence self.oid_).length : Int))
          ∧ (0 : Int) < ((self.db_.GetSequence self.oid_).length : Int)
          ∧ (self.read_seqinfo SeqInfo).1.oid_ = self.oid_ + 1)
    ∧ (self.db_.GetNumSeqs ≤ self.oid_ →
        (self.read_seqinfo SeqInfo).2 = .ok (SeqInfo 0 0)
          ∧ (self.read_seqinfo SeqInfo).1.oid_ = self.oid_ + 1) := by
  have hinc := int32_succ h
  by_cases hend : self.oid_ ≥ self.db_.GetNumSeqs
  · have hr : self.read_seqinfo SeqInfo
        = ({ self with oid_ := int32 (self.oid_ + 1) }, .ok (SeqInfo 0 0)) := by
      simp only [BlastDB.read_seqinfo, if_pos hend]
    rw [hr]
    refine ⟨⟨?_, ?_⟩, ?_, ?_, ?_⟩
    · rintro ⟨e, he⟩
      exact absurd he (by simp)
    · rintro ⟨hlt, _⟩
      omega
    · rintro ⟨e, he⟩
      exact absurd he (by simp)
    · intro hlt
      omega
    · intro _
      exact ⟨rfl, hinc⟩
  · by_cases hz : (((self.db_.GetSequence self.oid_).length : Nat) : Int) = 0
    · have hr : self.read_seqinfo SeqInfo = (self, .error .zero_length) := by
        simp only [BlastDB.read_seqinfo, if_neg hend, if_pos hz]
      rw [hr]
      refine ⟨⟨?_, ?_⟩, ?_, ?_, ?_⟩
      · intro _
        exact ⟨by omega, by exact_mod_cast hz⟩
      · intro _
        exact ⟨_, rfl⟩
      · intro _
        rfl
      · intro _ hne
        exact absurd (by exact_mod_cast hz) hne
      · intro hge
        exact absurd hge hend
    · have hr : self.read_seqinfo SeqInfo
          = ({ self with oid_ := int32 (self.oid_ + 1) },
              .ok (SeqInfo self.oid_ ((self.db_.GetSequence self.oid_).length : Int))) := by
        simp only [BlastDB.read_seqinfo, if_neg hend, if_neg hz]
      rw [hr]
      refine ⟨⟨?_, ?_⟩, ?_, ?_, ?_⟩
      · rintro ⟨e, he⟩
        exact absurd he (by simp)
      · rintro ⟨_, hlen⟩
        exact absurd (by exact_mod_cast hlen) hz
      · rintro ⟨e, he⟩
        exact absurd he (by simp)
      · intro _ _
        exact ⟨rfl, by omega, hinc⟩
      · intro hge
        exact absurd hge hend

/-- C11 (witness): a reader at `oid_ = 5` over a database of one sequence is
past the end: `read_seqinfo` returns the end marker and `oid_` becomes 6. -/
theorem read_seqinfo_spec_witness :
    (-(2 ^ 31) ≤ (5 : Int) ∧ (5 : Int) < 2 ^ 31 - 1)
    ∧ (BlastDB.read_seqinfo (fun pos len => (pos, len))
          { db_ := CSeqDB.single [1, 2, 3] "seq1", oid_ := 5, oid_seqdata_ := 0 }).2
        = .ok (0, 0)
    ∧ (BlastDB.read_seqinfo (fun pos len => (pos, len))
          { db_ := CSeqDB.single [1, 2, 3] "seq1", oid_ := 5, oid_seqdata_ := 0 }).1.oid_
        = 5 + 1 :=
  ⟨by decide,
    (read_seqinfo_spec (fun pos len => (pos, len))
      { db_ := CSeqDB.single [1, 2, 3] "seq1", oid_ := 5, oid_seqdata_ := 0 }
      (by decide)).2.2.2 (by decide)⟩

/-- C13: for `oid_` an `int`, whenever `read_seqinfo` returns without raising
(a sequence record or the end marker), `putback_seqinfo` called right after it
restores `oid_`, hence `tell_seq()`, to the value before the read and leaves
`oid_seqdata_` unchanged; the reader is back in the state before the read. -/
theorem putback_seqinfo_read_seqinfo {σ : Type} (SeqInfo : Int → Int → σ) (self : BlastDB)
    (r : σ) (hint : isInt32 self.oid_) (hok : (self.read_seqinfo SeqInfo).2 = .ok r) :
    (self.read_seqinfo SeqInfo).1.putback_seqinfo.oid_ = self.oid_
    ∧ (self.read_seqinfo SeqInfo).1.putback_seqinfo.tell_seq = self.tell_seq
    ∧ (self.read_seqinfo SeqInfo).1.putback_seqinfo.oid_seqdata_ = self.oid_seqdata_
    ∧ (self.read_seqinfo SeqInfo).1.putback_seqinfo = self := by
  have hback := int32_pred_succ hint
  have hstate : (self.read_seqinfo SeqInfo).1.putback_seqinfo = self := by
    by_cases hend : self.oid_ ≥ self.db_.GetNumSeqs
    · simp only [BlastDB.read_seqinfo, if_pos hend, BlastDB.putback_seqinfo, hback]
    · by_cases hz : (((self.db_.GetSequence self.oid_).length : Nat) : Int) = 0
      · simp only [BlastDB.read_seqinfo, if_neg hend, if_pos hz] at hok
        exact absurd hok (by simp)
      · simp only [BlastDB.read_seqinfo, if_neg hend, if_neg hz, BlastDB.putback_seqinfo, hback]
  rw [hstate]
  exact ⟨rfl, rfl, rfl, rfl⟩

/-- C13 (witness): a reader at `oid_ = 0` over one sequence of three residues
reads the record `(0, 3)`; after `putback_seqinfo` its `oid_` is 0 again. -/
theorem putback_seqinfo_read_seqinfo_witness :
    isInt32 0
    ∧ (BlastDB.read_seqinfo (fun pos len => (pos, len))
          { db_ := CSeqDB.single [1, 2, 3] "seq1", oid_ := 0, oid_seqdata_ := 7 }).2
        = .ok (0, 3)
    ∧ (BlastDB.read_seqinfo (fun pos len => (pos, len))
          { db_ := CSeqDB.single [1, 2, 3] "seq1", oid_ := 0, oid_seqdata_ := 7 }).1.putback_seqinfo.oid_
        = 0 :=
  ⟨by decide, rfl,
    (putback_seqinfo_read_seqinfo (fun pos len => (pos, len))
      { db_ := CSeqDB.single [1, 2, 3] "seq1", oid_ := 0, oid_seqdata_ := 7 }
      (0, 3) (by decide) rfl).1⟩

/-! ## Monotonicity of the Plain kernel -/

/-- Masking with 128 keeps bit 7 alone. -/
theorem and_128_eq (i : Nat) : i &&& 128 = if i.testBit 7 then 128 else 0 := by
  apply Nat.eq_of_testBit_eq
  intro j
  have h128 : Nat.testBit 128 j = decide (7 = j) := by
    rw [show (128 : Nat) = 2 ^ 7 by norm_num]
    exact Nat.testBit_two_pow
  rw [Nat.testBit_and, h128]
  by_cases hb : i.testBit 7
  · rw [if_pos hb, h128]
    by_cases hj : 7 = j
    · subst hj
      simp [hb]
    · simp [hj]
  · rw [if_neg hb]
    by_cases hj : 7 = j
    · subst hj
      simp [hb]
    · simp [hj]

/-- C14 (code bug): the loop of `diag_scores` reaches `i = 128`, where the
index `i & 128` is 128 and not a valid index of the 128-element `scores`; in
general the index is below 128 exactly in the iterations whose counter has
bit 7 clear. -/
theorem diag_scores_index_out_of_bounds :
    128 < diag_scores_n
    ∧ diag_scores_index 128 = 128
    ∧ ¬ diag_scores_index 128 < diag_scores_size
    ∧ ∀ i : Nat, diag_scores_index i < diag_scores_size ↔ i.testBit 7 = false := by
  refine ⟨by decide, by decide, by decide, fun i => ?_⟩
  unfold diag_scores_index diag_scores_size
  rw [and_128_eq]
  by_cases hb : i.testBit 7
  · simp [hb]
  · simp [hb]

end Diamond
